import Mathlib

/-!
A verification development for the NetAppTesting peer-to-peer chat client.

The two subsystems under study are embedded shallowly:

* `ChatStore` models `src/chatroom_manager.py` (`ChatroomManager`).  The
  on-disk directory of one-file-per-room JSON records is modelled as a
  `List Chatroom`; writing `{id}.json` is `saveRoom` (replace the record
  with that id, or append a fresh one).  Directory iteration
  (`os.listdir`) is modelled in the fixed order of that list.
  Nondeterministic inputs of the Python code (`uuid` tokens,
  `time.time()` stamps) are explicit arguments.

* `NodeCtrl` models `src/node_controller.py` (`NodeController`).  The
  per-address `.out` mailbox files are a function from file key to
  `Option String` (`none` = file absent), and the in-memory `responses`
  dictionary is a function from raw address to entry list (absent key =
  `[]`, matching the `if addr not in dict` guards).

* `UserStore` models `src/user_management.py` (`UserManager`).  The
  SHA-256 primitive from Python's `hashlib` is an external library
  function; it is carried as an uninterpreted parameter `sha256hex`,
  which is sound because `hashlib.sha256(..).hexdigest()` is a pure
  deterministic function of its input.

Python strings are Lean `String`s; character-level helpers (`pyStrip`,
`charMapStr`, lexicographic comparison) re-implement the exact
semantics of the Python string operations used by the code
(`str.strip`, single-character `str.replace`, `sorted` on strings),
restricted to the ASCII whitespace the code can meet.
-/

namespace NetAppTesting

/-! ## Chat store: data model (`src/chatroom_manager.py`) -/

/-- One message record, as persisted inside a chatroom's JSON document:
`{id, sender, content, type, timestamp, file_info?}`.  Timestamps
(`time.time()`) are modelled as `Nat`. -/
structure Message where
  id : String
  sender : String
  content : String
  type : String
  timestamp : Nat
  file_info : Option String
deriving Repr, DecidableEq

/-- One chatroom record, as persisted in `{id}.json`:
`{id, name, creator, created_at, members, messages}`. -/
structure Chatroom where
  id : String
  name : String
  creator : String
  created_at : Nat
  members : List String
  messages : List Message
deriving Repr, DecidableEq

/-- The chatrooms directory: one record per file.  Writing room `r`'s
JSON file overwrites the record with `r`'s id when present, otherwise
creates a new file. -/
def saveRoom (rooms : List Chatroom) (r : Chatroom) : List Chatroom :=
  if rooms.any (fun x => x.id = r.id) then
    rooms.map (fun x => if x.id = r.id then r else x)
  else
    rooms ++ [r]

/-- `ChatroomManager.chatroom_exists`. -/
def chatroom_exists (rooms : List Chatroom) (chatroom_id : String) : Bool :=
  rooms.any (fun x => x.id = chatroom_id)

/-- `ChatroomManager.get_chatroom`: load `{id}.json` if it exists. -/
def get_chatroom (rooms : List Chatroom) (chatroom_id : String) : Option Chatroom :=
  rooms.find? (fun x => x.id = chatroom_id)

/-- `ChatroomManager.create_chatroom name creator members`, with the
freshly generated id (`uuid4[:8]`) and the clock reading passed in
explicitly.  `members = []` models the Python default `None`.  Returns
the new directory state and `(success, message, chatroom_id)`. -/
def create_chatroom (rooms : List Chatroom) (name creator : String)
    (members : List String) (newId : String) (now : Nat) :
    List Chatroom × (Bool × String × String) :=
  let members := if creator ∈ members then members else members ++ [creator]
  let room : Chatroom :=
    { id := newId, name := name, creator := creator, created_at := now
      members := members, messages := [] }
  (saveRoom rooms room, (true, "Chatroom created successfully", newId))

/-- `ChatroomManager.add_member`. -/
def add_member (rooms : List Chatroom) (chatroom_id username : String) :
    List Chatroom × (Bool × String) :=
  match get_chatroom rooms chatroom_id with
  | none => (rooms, (false, "Chatroom does not exist"))
  | some room =>
    if username ∈ room.members then
      (rooms, (false, "User already a member"))
    else
      (saveRoom rooms { room with members := room.members ++ [username] },
       (true, "Member added successfully"))

/-- `ChatroomManager.remove_member`.  Python's `list.remove` deletes the
first occurrence, i.e. `List.erase`. -/
def remove_member (rooms : List Chatroom) (chatroom_id username : String) :
    List Chatroom × (Bool × String) :=
  match get_chatroom rooms chatroom_id with
  | none => (rooms, (false, "Chatroom does not exist"))
  | some room =>
    if username ∉ room.members then
      (rooms, (false, "User is not a member"))
    else if username = room.creator then
      (rooms, (false, "Cannot remove the creator of the chatroom"))
    else
      (saveRoom rooms { room with members := room.members.erase username },
       (true, "Member removed successfully"))

/-- `ChatroomManager.add_message`.  The fresh message id and the clock
reading are explicit arguments; the `file_info` key is stored only when
`message_type == "file"` and the supplied dictionary is truthy
(`none` models both `None` and a falsy dictionary). -/
def add_message (rooms : List Chatroom) (chatroom_id sender content : String)
    (message_type : String) (file_info : Option String)
    (msgId : String) (now : Nat) :
    List Chatroom × Option (Bool × String × Message) :=
  match get_chatroom rooms chatroom_id with
  | none => (rooms, none)
  | some room =>
    if sender ∉ room.members then
      (rooms, none)
    else
      let msg : Message :=
        { id := msgId, sender := sender, content := content
          type := message_type, timestamp := now
          file_info := if message_type = "file" then file_info else none }
      (saveRoom rooms { room with messages := room.messages ++ [msg] },
       some (true, "Message added successfully", msg))

/-- Stable insertion (descending by timestamp) used to model Python's
`messages.sort(key=lambda x: x["timestamp"], reverse=True)`: a stable
sort that orders newest first. -/
def insertDesc (m : Message) : List Message → List Message
  | [] => [m]
  | x :: xs => if x.timestamp ≤ m.timestamp then m :: x :: xs else x :: insertDesc m xs

/-- Stable descending-by-timestamp sort (`list.sort(reverse=True)` with
the timestamp key): equal timestamps keep their original order. -/
def sortDescByTs : List Message → List Message
  | [] => []
  | m :: ms => insertDesc m (sortDescByTs ms)

/-- `ChatroomManager.get_messages chatroom_id limit before_timestamp`.
`before = none` models the Python default `before_timestamp=None`; the
Python guard `if before_timestamp:` is a truthiness test, so the filter
is also skipped when the supplied timestamp equals `0`. -/
def get_messages (rooms : List Chatroom) (chatroom_id : String)
    (limit : Nat) (before : Option Nat) : List Message :=
  match get_chatroom rooms chatroom_id with
  | none => []
  | some room =>
    let messages := room.messages
    let messages :=
      match before with
      | some b => if b ≠ 0 then messages.filter (fun m => m.timestamp < b) else messages
      | none => messages
    (sortDescByTs messages).take limit

/-- Lexicographic order on code points, as Python compares strings. -/
def charsLe : List Char → List Char → Bool
  | [], _ => true
  | _ :: _, [] => false
  | c :: cs, d :: ds =>
    if c.toNat < d.toNat then true
    else if d.toNat < c.toNat then false
    else charsLe cs ds

/-- Python `a <= b` on strings (code-point lexicographic). -/
def pyStrLe (a b : String) : Bool :=
  charsLe a.data b.data

/-- Python `sorted([user1, user2])` (stable, so the first argument stays
first on a tie, which for strings means equality). -/
def sortedPair (a b : String) : String × String :=
  if pyStrLe a b then (a, b) else (b, a)

/-- Python `members.all-in` test for `set(A) == set(B)`. -/
def sameSet (xs ys : List String) : Bool :=
  xs.all (fun x => x ∈ ys) && ys.all (fun y => y ∈ xs)

/-- `p.data` is a prefix of `s.data`, i.e. Python `s.startswith(p)`. -/
def charsPre : List Char → List Char → Bool
  | [], _ => true
  | _ :: _, [] => false
  | c :: cs, d :: ds => c = d && charsPre cs ds

/-- Python `name.startswith("DM_")`-style test. -/
def pyStartsWith (s p : String) : Bool :=
  charsPre p.data s.data

/-- The scan predicate of `ChatroomManager.create_direct_message`: a
room whose name starts with `"DM_"`, whose member set equals the pair's
set, and whose member list has length 2. -/
def isDMRoomFor (users : List String) (r : Chatroom) : Bool :=
  pyStartsWith r.name "DM_" && sameSet r.members users && r.members.length == 2

/-- `ChatroomManager.create_direct_message user1 user2`, with the fresh
id for the (possible) creation passed in.  Returns the directory state
and `(chatroom_id, is_new)`. -/
def create_direct_message (rooms : List Chatroom) (user1 user2 : String)
    (newId : String) (now : Nat) :
    List Chatroom × (Option String × Bool) :=
  let p := sortedPair user1 user2
  let users := [p.1, p.2]
  let dm_name := "DM_" ++ p.1 ++ "_" ++ p.2
  match rooms.find? (isDMRoomFor users) with
  | some r => (rooms, (some r.id, false))
  | none =>
    let res := create_chatroom rooms dm_name p.1 users newId now
    if res.2.1 then (res.1, (some res.2.2.2, true)) else (res.1, (none, false))

/-- One store mutation, with the nondeterministic inputs (fresh ids,
clock readings) recorded in the operation. -/
inductive StoreOp where
  | create (name creator : String) (members : List String) (newId : String) (now : Nat)
  | addMember (chatroom_id username : String)
  | removeMember (chatroom_id username : String)
  | addMessage (chatroom_id sender content message_type : String)
      (file_info : Option String) (msgId : String) (now : Nat)

/-- Apply one store operation to the chatrooms directory. -/
def applyOp (rooms : List Chatroom) : StoreOp → List Chatroom
  | .create name creator members newId now =>
    (create_chatroom rooms name creator members newId now).1
  | .addMember cid u => (add_member rooms cid u).1
  | .removeMember cid u => (remove_member rooms cid u).1
  | .addMessage cid s c ty fi mid now => (add_message rooms cid s c ty fi mid now).1

/-- The directory reached from an empty store by a sequence of
operations. -/
def runOps (ops : List StoreOp) : List Chatroom :=
  ops.foldl applyOp []

/-! ## Node controller (`src/node_controller.py`) -/

/-- ASCII whitespace stripped by `str.strip()` on the content the
mailbox protocol produces. -/
def isPyWS (c : Char) : Bool :=
  c = ' ' || c = '\t' || c = '\n' || c = '\r'

/-- Python `content.strip()`: drop leading and trailing whitespace. -/
def pyStrip (s : String) : String :=
  ⟨((s.data.dropWhile isPyWS).reverse.dropWhile isPyWS).reverse⟩

/-- Apply a character map to a string (Python's single-character
`str.replace` replaces each occurrence independently, i.e. maps each
character). -/
def charMapStr (f : Char → Char) (s : String) : String :=
  ⟨s.data.map f⟩

/-- `NodeController._format_node_address`: `node_address.replace(':', '_')`. -/
def format_node_address (node_address : String) : String :=
  charMapStr (fun c => if c = ':' then '_' else c) node_address

/-- An entry of the in-memory `responses` ledger:
`{"content": ..., "timestamp": ...}`. -/
structure Entry where
  content : String
  timestamp : Nat
deriving Repr, DecidableEq

/-- State of a `NodeController` together with the `_nodes` directory:
`files k` is the content of the out-file for key `k` (`none` when the
file does not exist), `responses a` the ledger list for raw address `a`
(`[]` when the key is absent from the dictionary). -/
structure NCState where
  files : String → Option String
  responses : String → List Entry

/-- `NodeController._read_from_node`: read, strip, and — when the
stripped content is truthy and not the `"done"` sentinel — clear the
out-file and hand the content over. -/
def read_from_node (st : NCState) (node_address : String) :
    NCState × Option String :=
  let key := format_node_address node_address
  match st.files key with
  | none => (st, none)
  | some raw =>
    let content := pyStrip raw
    if content ≠ "" ∧ content ≠ "done" then
      ({ st with files := fun k => if k = key then some "" else st.files k },
       some content)
    else
      (st, none)

/-- The ledger update inside `NodeController.get_response`: append the
entry, then keep only the last 100 (`list[-100:]`). -/
def recordResponse (hist : List Entry) (e : Entry) : List Entry :=
  let h := hist ++ [e]
  if h.length > 100 then h.drop (h.length - 100) else h

/-- `NodeController.get_response`, with the clock reading passed in.
The `if response:` guard is a truthiness test on the returned string. -/
def get_response (st : NCState) (node_address : String) (now : Nat) :
    NCState × Option String :=
  let r := read_from_node st node_address
  match r.2 with
  | none => (r.1, none)
  | some content =>
    if content ≠ "" then
      ({ r.1 with
          responses := fun a =>
            if a = node_address then
              recordResponse (r.1.responses a) ⟨content, now⟩
            else r.1.responses a },
       some content)
    else
      (r.1, some content)

/-- `NodeController.get_all_responses`. -/
def get_all_responses (st : NCState) (node_address : String) : List Entry :=
  st.responses node_address

/-- The external node process writing a result into the address's
out-file (the collaborator side of the file-pair rendezvous; not part
of the controller itself). -/
def writeNodeOutput (st : NCState) (node_address content : String) : NCState :=
  { st with
      files := fun k =>
        if k = format_node_address node_address then some content else st.files k }

/-- A controller as freshly constructed: no out-files observed, empty
ledger. -/
def initialNC : NCState :=
  { files := fun _ => none, responses := fun _ => [] }

/-- Drive the controller through a sequence of external results: the
node writes each raw content, then the facade polls once, at the paired
clock reading. -/
def pollSequence (node_address : String) (inputs : List (String × Nat)) : NCState :=
  inputs.foldl
    (fun st p => (get_response (writeNodeOutput st node_address p.1) node_address p.2).1)
    initialNC

/-- The last `n` elements of a list (`l[-n:]`). -/
def lastN (n : Nat) (l : List α) : List α :=
  l.drop (l.length - n)

/-- The inverse substitution for `format_node_address` promised by the
spec's reversibility requirement (map the filesystem-safe `'_'` back to
the `':'` delimiter); it is not part of the Python code. -/
def unformat_node_address (s : String) : String :=
  charMapStr (fun c => if c = '_' then ':' else c) s

/-! ## User store (`src/user_management.py`) -/

/-- One user record, as persisted in `{username}.json`. -/
structure UserData where
  username : String
  password_hash : String
  ip : String
  port : Nat
  created_at : Nat
  last_login : Option Nat
deriving Repr, DecidableEq

/-- State of a `UserManager`: the users directory (one file per
username) and the `current_user` field. -/
structure UMState where
  users : String → Option UserData
  current_user : Option UserData

/-- `UserManager.hash_password`, over an uninterpreted pure hash
primitive `sha256hex` standing for Python's
`hashlib.sha256(..).hexdigest()`: hash the password concatenated with
the fixed salt. -/
def hash_password (sha256hex : String → String) (password : String) : String :=
  sha256hex (password ++ "netapp_secure_salt")

/-- `UserManager.user_exists`. -/
def user_exists (st : UMState) (username : String) : Bool :=
  (st.users username).isSome

/-- `UserManager.register_user`, with the clock reading explicit. -/
def register_user (sha256hex : String → String) (st : UMState)
    (username password ip : String) (port : Nat) (now : Nat) :
    UMState × (Bool × String) :=
  if user_exists st username then
    (st, (false, "Username already exists"))
  else
    let u : UserData :=
      { username := username
        password_hash := hash_password sha256hex password
        ip := ip, port := port, created_at := now, last_login := none }
    ({ st with users := fun n => if n = username then some u else st.users n },
     (true, "User registered successfully"))

/-- `UserManager.authenticate`, with the clock reading explicit.  On
success the record's `last_login` is rewritten and the user becomes
`current_user`. -/
def authenticate (sha256hex : String → String) (st : UMState)
    (username password : String) (now : Nat) :
    UMState × (Bool × String) :=
  match st.users username with
  | none => (st, (false, "User does not exist"))
  | some u =>
    if u.password_hash = hash_password sha256hex password then
      let u' := { u with last_login := some now }
      ({ users := fun n => if n = username then some u' else st.users n
         current_user := some u' },
       (true, "Authentication successful"))
    else
      (st, (false, "Invalid password"))

/-! ## Store invariants -/

/-- Every room of the directory lists its creator among its members. -/
def CreatorInv (rooms : List Chatroom) : Prop :=
  ∀ r ∈ rooms, r.creator ∈ r.members

/-- Every room of the directory has a duplicate-free member list. -/
def NodupInv (rooms : List Chatroom) : Prop :=
  ∀ r ∈ rooms, r.members.Nodup

/-- A member of `saveRoom rooms r` is an old room or the written one. -/
theorem mem_saveRoom {rooms : List Chatroom} {r r' : Chatroom}
    (h : r' ∈ saveRoom rooms r) : r' ∈ rooms ∨ r' = r := by
  unfold saveRoom at h
  split at h
  · rcases List.mem_map.mp h with ⟨x, hx, hxr⟩
    by_cases hid : x.id = r.id
    · rw [if_pos hid] at hxr
      exact Or.inr hxr.symm
    · rw [if_neg hid] at hxr
      exact Or.inl (hxr ▸ hx)
  · rcases List.mem_append.mp h with h1 | h1
    · exact Or.inl h1
    · exact Or.inr (List.mem_singleton.mp h1)

/-- Each store operation preserves the creator-membership invariant. -/
theorem applyOp_creatorInv {rooms : List Chatroom} (op : StoreOp)
    (h : CreatorInv rooms) : CreatorInv (applyOp rooms op) := by
  intro r' hr'
  cases op with
  | create name creator members newId now =>
    rcases mem_saveRoom hr' with hold | hnew
    · exact h r' hold
    · subst hnew
      by_cases hc : creator ∈ members <;>
        simp [create_chatroom, hc]
  | addMember cid u =>
    rcases hfind : get_chatroom rooms cid with _ | room
    · simp only [applyOp, add_member, hfind] at hr'
      exact h r' hr'
    · have hmem : room ∈ rooms := List.mem_of_find?_eq_some hfind
      by_cases hu : u ∈ room.members
      · simp only [applyOp, add_member, hfind, if_pos hu] at hr'
        exact h r' hr'
      · simp only [applyOp, add_member, hfind, if_neg hu] at hr'
        rcases mem_saveRoom hr' with hold | hnew
        · exact h r' hold
        · subst hnew
          exact List.mem_append_left _ (h room hmem)
  | removeMember cid u =>
    rcases hfind : get_chatroom rooms cid with _ | room
    · simp only [applyOp, remove_member, hfind] at hr'
      exact h r' hr'
    · have hmem : room ∈ rooms := List.mem_of_find?_eq_some hfind
      by_cases hu : u ∈ room.members
      · by_cases huc : u = room.creator
        · simp only [applyOp, remove_member, hfind, hu, huc] at hr'
          simp at hr'
          split at hr' <;> exact h r' hr'
        · simp only [applyOp, remove_member, hfind] at hr'
          rw [if_neg (by simp [hu]), if_neg huc] at hr'
          rcases mem_saveRoom hr' with hold | hnew
          · exact h r' hold
          · subst hnew
            exact (List.mem_erase_of_ne (Ne.symm huc)).mpr (h room hmem)
      · simp only [applyOp, remove_member, hfind, if_pos hu] at hr'
        exact h r' hr'
  | addMessage cid s c ty fi mid now =>
    rcases hfind : get_chatroom rooms cid with _ | room
    · simp only [applyOp, add_message, hfind] at hr'
      exact h r' hr'
    · have hmem : room ∈ rooms := List.mem_of_find?_eq_some hfind
      by_cases hs : s ∈ room.members
      · simp only [applyOp, add_message, hfind] at hr'
        rw [if_neg (by simp [hs])] at hr'
        rcases mem_saveRoom hr' with hold | hnew
        · exact h r' hold
        · subst hnew
          exact h room hmem
      · simp only [applyOp, add_message, hfind] at hr'
        rw [if_pos (by simp [hs])] at hr'
        exact h r' hr'

/-- The creator-membership invariant holds after any operation
sequence, from any directory already satisfying it. -/
theorem foldl_creatorInv (ops : List StoreOp) :
    ∀ rooms : List Chatroom, CreatorInv rooms →
      CreatorInv (ops.foldl applyOp rooms) := by
  induction ops with
  | nil => exact fun rooms h => h
  | cons op ops ih =>
    intro rooms h
    exact ih _ (applyOp_creatorInv op h)

/-- `remove_member` on the creator of an existing room fails with the
cannot-remove-creator message and does not change the directory,
provided the room lists its creator as a member. -/
theorem remove_member_creator {rooms : List Chatroom} {cid : String}
    {r : Chatroom} (hfind : get_chatroom rooms cid = some r)
    (hcm : r.creator ∈ r.members) :
    remove_member rooms cid r.creator =
      (rooms, (false, "Cannot remove the creator of the chatroom")) := by
  simp [remove_member, hfind, hcm]

/-- C1: in every chatroom directory reachable by a sequence of store
operations, each room's creator is among its members, and
`remove_member` applied to an existing room's creator fails with the
cannot-remove-creator outcome and leaves the directory unchanged. -/
theorem claim1_creator_always_member (ops : List StoreOp) :
    CreatorInv (runOps ops) ∧
    ∀ cid r, get_chatroom (runOps ops) cid = some r →
      remove_member (runOps ops) cid r.creator =
        (runOps ops, (false, "Cannot remove the creator of the chatroom")) := by
  have hinv : CreatorInv (runOps ops) :=
    foldl_creatorInv ops [] (by intro r hr; cases hr)
  exact ⟨hinv, fun cid r hfind =>
    remove_member_creator hfind (hinv r (List.mem_of_find?_eq_some hfind))⟩

/-- Witness for C1 at a concrete operation sequence. -/
theorem claim1_creator_always_member_witness :
    remove_member (runOps [StoreOp.create "Team" "alice" [] "r1" 0]) "r1" "alice" =
      (runOps [StoreOp.create "Team" "alice" [] "r1" 0],
       (false, "Cannot remove the creator of the chatroom")) :=
  (claim1_creator_always_member [StoreOp.create "Team" "alice" [] "r1" 0]).2 "r1"
    { id := "r1", name := "Team", creator := "alice", created_at := 0
      members := ["alice"], messages := [] } (by decide)

/-- The member lists a `create` operation may introduce duplicates
from; all other operations are unconstrained. -/
def createMembersNodup : StoreOp → Prop
  | .create _ _ members _ _ => members.Nodup
  | _ => True

instance : DecidablePred createMembersNodup := fun op => by
  cases op <;> unfold createMembersNodup <;> infer_instance

/-- Each store operation whose `create` payload is duplicate-free
preserves duplicate-free member lists. -/
theorem applyOp_nodupInv {rooms : List Chatroom} (op : StoreOp)
    (hop : createMembersNodup op) (h : NodupInv rooms) :
    NodupInv (applyOp rooms op) := by
  intro r' hr'
  cases op with
  | create name creator members newId now =>
    rcases mem_saveRoom hr' with hold | hnew
    · exact h r' hold
    · subst hnew
      by_cases hc : creator ∈ members
      · simpa [create_chatroom, hc] using hop
      · have hm : members.Nodup := hop
        simp [create_chatroom, hc, List.nodup_append, hm]
  | addMember cid u =>
    rcases hfind : get_chatroom rooms cid with _ | room
    · simp only [applyOp, add_member, hfind] at hr'
      exact h r' hr'
    · have hmem : room ∈ rooms := List.mem_of_find?_eq_some hfind
      by_cases hu : u ∈ room.members
      · simp only [applyOp, add_member, hfind, if_pos hu] at hr'
        exact h r' hr'
      · simp only [applyOp, add_member, hfind, if_neg hu] at hr'
        rcases mem_saveRoom hr' with hold | hnew
        · exact h r' hold
        · subst hnew
          simp [List.nodup_append, h room hmem, hu]
  | removeMember cid u =>
    rcases hfind : get_chatroom rooms cid with _ | room
    · simp only [applyOp, remove_member, hfind] at hr'
      exact h r' hr'
    · have hmem : room ∈ rooms := List.mem_of_find?_eq_some hfind
      by_cases hu : u ∈ room.members
      · by_cases huc : u = room.creator
        · simp only [applyOp, remove_member, hfind, hu, huc] at hr'
          simp at hr'
          split at hr' <;> exact h r' hr'
        · simp only [applyOp, remove_member, hfind] at hr'
          rw [if_neg (by simp [hu]), if_neg huc] at hr'
          rcases mem_saveRoom hr' with hold | hnew
          · exact h r' hold
          · subst hnew
            exact (h room hmem).erase u
      · simp only [applyOp, remove_member, hfind, if_pos hu] at hr'
        exact h r' hr'
  | addMessage cid s c ty fi mid now =>
    rcases hfind : get_chatroom rooms cid with _ | room
    · simp only [applyOp, add_message, hfind] at hr'
      exact h r' hr'
    · have hmem : room ∈ rooms := List.mem_of_find?_eq_some hfind
      by_cases hs : s ∈ room.members
      · simp only [applyOp, add_message, hfind] at hr'
        rw [if_neg (by simp [hs])] at hr'
        rcases mem_saveRoom hr' with hold | hnew
        · exact h r' hold
        · subst hnew
          exact h room hmem
      · simp only [applyOp, add_message, hfind] at hr'
        rw [if_pos (by simp [hs])] at hr'
        exact h r' hr'

/-- Duplicate-free member lists are preserved by any operation sequence
whose `create` payloads are duplicate-free. -/
theorem foldl_nodupInv (ops : List StoreOp)
    (hops : ∀ op ∈ ops, createMembersNodup op) :
    ∀ rooms : List Chatroom, NodupInv rooms →
      NodupInv (ops.foldl applyOp rooms) := by
  induction ops with
  | nil => exact fun rooms h => h
  | cons op ops ih =>
    intro rooms h
    exact ih (fun o ho => hops o (List.mem_cons_of_mem _ ho)) _
      (applyOp_nodupInv op (hops op (List.mem_cons_self op ops)) h)

/-- C9 fails as stated: `create_chatroom` copies a duplicated initial
member list verbatim, so a reachable room has a duplicated member. -/
theorem claim9_counterexample :
    ∃ r ∈ runOps [StoreOp.create "x" "alice" ["bob", "bob"] "r1" 0],
      ¬ r.members.Nodup := by decide

/-- C9 (amended): when every `create` operation of the sequence is given
a duplicate-free initial member list, every reachable room's member
list is duplicate-free. -/
theorem claim9_members_nodup (ops : List StoreOp)
    (hops : ∀ op ∈ ops, createMembersNodup op) :
    ∀ r ∈ runOps ops, r.members.Nodup :=
  foldl_nodupInv ops hops [] (by intro r hr; cases hr)

/-- Witness for the amended C9 at a concrete operation sequence. -/
theorem claim9_members_nodup_witness :
    (["bob", "alice"] : List String).Nodup :=
  claim9_members_nodup [StoreOp.create "Team" "alice" ["bob"] "r1" 0]
    (by decide)
    { id := "r1", name := "Team", creator := "alice", created_at := 0
      members := ["bob", "alice"], messages := [] }
    (by decide)

/-- A successful `get_chatroom` yields a stored room whose id is the
requested one. -/
theorem get_chatroom_spec {rooms : List Chatroom} {cid : String}
    {r : Chatroom} (h : get_chatroom rooms cid = some r) :
    r ∈ rooms ∧ r.id = cid :=
  ⟨List.mem_of_find?_eq_some h, by simpa using List.find?_some h⟩

/-- Rewriting the known room record: `saveRoom` replaces exactly the
records carrying the requested id. -/
theorem saveRoom_of_get {rooms : List Chatroom} {cid : String}
    {r : Chatroom} (h : get_chatroom rooms cid = some r)
    (r' : Chatroom) (hid : r'.id = cid) :
    saveRoom rooms r' = rooms.map (fun x => if x.id = cid then r' else x) := by
  obtain ⟨hmem, hrid⟩ := get_chatroom_spec h
  have hany : rooms.any (fun x => x.id = cid) = true :=
    List.any_eq_true.mpr ⟨r, hmem, by simp [hrid]⟩
  simp only [saveRoom, hid, hany, if_true]

/-- C8: `add_member` succeeds exactly when the room exists and the user
is not yet a member; on success the stored member list gains the user
at the end (all other fields and rooms untouched), on failure the
directory is unchanged. -/
theorem claim8_add_member (rooms : List Chatroom) (cid u : String) :
    (get_chatroom rooms cid = none →
      add_member rooms cid u = (rooms, (false, "Chatroom does not exist"))) ∧
    (∀ r, get_chatroom rooms cid = some r → u ∈ r.members →
      add_member rooms cid u = (rooms, (false, "User already a member"))) ∧
    (∀ r, get_chatroom rooms cid = some r → u ∉ r.members →
      add_member rooms cid u =
        (rooms.map (fun x =>
           if x.id = cid then { r with members := r.members ++ [u] } else x),
         (true, "Member added successfully"))) := by
  refine ⟨fun hnone => ?_, fun r hfind hu => ?_, fun r hfind hu => ?_⟩
  · simp [add_member, hnone]
  · simp [add_member, hfind, hu]
  · have hid : ({ r with members := r.members ++ [u] } : Chatroom).id = cid :=
      (get_chatroom_spec hfind).2
    rw [add_member, hfind]
    simp only [if_neg hu, saveRoom_of_get hfind _ hid]

/-- Witness for C8: both the success case and the already-member case
at concrete inputs. -/
theorem claim8_add_member_witness :
    (add_member [{ id := "r1", name := "Team", creator := "alice",
                   created_at := 0, members := ["alice"], messages := [] }]
       "r1" "bob" =
      ([{ id := "r1", name := "Team", creator := "alice", created_at := 0,
          members := ["alice", "bob"], messages := [] }],
       (true, "Member added successfully"))) ∧
    (add_member [{ id := "r1", name := "Team", creator := "alice",
                   created_at := 0, members := ["alice"], messages := [] }]
       "r1" "alice" =
      ([{ id := "r1", name := "Team", creator := "alice", created_at := 0,
          members := ["alice"], messages := [] }],
       (false, "User already a member"))) := by
  constructor
  · have h := (claim8_add_member
      [{ id := "r1", name := "Team", creator := "alice", created_at := 0,
         members := ["alice"], messages := [] }] "r1" "bob").2.2
      { id := "r1", name := "Team", creator := "alice", created_at := 0,
        members := ["alice"], messages := [] } (by decide) (by decide)
    simpa using h
  · exact (claim8_add_member
      [{ id := "r1", name := "Team", creator := "alice", created_at := 0,
         members := ["alice"], messages := [] }] "r1" "alice").2.1
      { id := "r1", name := "Team", creator := "alice", created_at := 0,
        members := ["alice"], messages := [] } (by decide) (by decide)

/-! ## Pagination (`get_messages`) -/

/-- Newest first: every later element has a timestamp no greater than
every earlier one. -/
def DescByTs (l : List Message) : Prop :=
  l.Pairwise (fun a b => b.timestamp ≤ a.timestamp)

theorem mem_insertDesc {m x : Message} :
    ∀ {l : List Message}, x ∈ insertDesc m l ↔ x = m ∨ x ∈ l := by
  intro l
  induction l with
  | nil => simp [insertDesc]
  | cons y ys ih =>
    by_cases h : y.timestamp ≤ m.timestamp
    · simp [insertDesc, h]
    · simp [insertDesc, h, ih]
      tauto

theorem mem_sortDescByTs {x : Message} :
    ∀ {l : List Message}, x ∈ sortDescByTs l ↔ x ∈ l := by
  intro l
  induction l with
  | nil => simp [sortDescByTs]
  | cons y ys ih =>
    simp [sortDescByTs, mem_insertDesc, ih]

theorem descByTs_insertDesc {m : Message} :
    ∀ {l : List Message}, DescByTs l → DescByTs (insertDesc m l) := by
  intro l
  induction l with
  | nil => intro _; simp [insertDesc, DescByTs]
  | cons y ys ih =>
    intro h
    rcases List.pairwise_cons.mp h with ⟨hy, hys⟩
    by_cases hle : y.timestamp ≤ m.timestamp
    · rw [insertDesc, if_pos hle]
      refine List.pairwise_cons.mpr ⟨?_, h⟩
      intro z hz
      rcases List.mem_cons.mp hz with rfl | hz
      · exact hle
      · exact le_trans (hy z hz) hle
    · rw [insertDesc, if_neg hle]
      refine List.pairwise_cons.mpr ⟨?_, ih hys⟩
      intro z hz
      rcases mem_insertDesc.mp hz with rfl | hz
      · exact le_of_not_le hle
      · exact hy z hz

theorem descByTs_sortDescByTs :
    ∀ (l : List Message), DescByTs (sortDescByTs l) := by
  intro l
  induction l with
  | nil => simp [sortDescByTs, DescByTs]
  | cons y ys ih => exact descByTs_insertDesc ih

/-- C5 (amended): `get_messages` returns at most `limit` messages,
newest first; when a nonzero `before` is supplied every returned
message is strictly older than it; with `before` absent — or zero,
which the truthiness guard treats as absent — the timestamp filter is
skipped. -/
theorem claim5_get_messages (rooms : List Chatroom) (cid : String) (L : Nat) :
    (∀ before, (get_messages rooms cid L before).length ≤ L) ∧
    (∀ before, DescByTs (get_messages rooms cid L before)) ∧
    (∀ b, b ≠ 0 → ∀ m ∈ get_messages rooms cid L (some b), m.timestamp < b) ∧
    (∀ r, get_chatroom rooms cid = some r →
      get_messages rooms cid L none = (sortDescByTs r.messages).take L ∧
      get_messages rooms cid L (some 0) = (sortDescByTs r.messages).take L) := by
  refine ⟨fun before => ?_, fun before => ?_, fun b hb m hm => ?_, fun r hfind => ?_⟩
  · rcases hfind : get_chatroom rooms cid with _ | room
    · simp [get_messages, hfind]
    · rw [get_messages, hfind]
      exact List.length_take_le ..
  · rcases hfind : get_chatroom rooms cid with _ | room
    · simp [get_messages, hfind, DescByTs]
    · rw [get_messages, hfind]
      exact (descByTs_sortDescByTs _).sublist (List.take_sublist ..)
  · rcases hfind : get_chatroom rooms cid with _ | room
    · rw [get_messages, hfind] at hm
      cases hm
    · rw [get_messages, hfind] at hm
      simp only [if_pos hb] at hm
      have hmem := mem_sortDescByTs.mp (List.mem_of_mem_take hm)
      simpa using (List.mem_filter.mp hmem).2
  · rw [get_messages, get_messages, hfind]
    exact ⟨rfl, rfl⟩

/-- Witness for the amended C5 at a concrete room. -/
theorem claim5_get_messages_witness :
    ∀ m ∈ get_messages
        [{ id := "r1", name := "Team", creator := "alice", created_at := 0,
           members := ["alice"],
           messages := [{ id := "m1", sender := "alice", content := "hi",
                          type := "text", timestamp := 5, file_info := none }] }]
        "r1" 50 (some 7), m.timestamp < 7 :=
  (claim5_get_messages
    [{ id := "r1", name := "Team", creator := "alice", created_at := 0,
       members := ["alice"],
       messages := [{ id := "m1", sender := "alice", content := "hi",
                      type := "text", timestamp := 5, file_info := none }] }]
    "r1" 50).2.2.1 7 (by decide)

/-- C5 fails as stated at `before = 0`: the Python truthiness guard
`if before_timestamp:` skips the filter, so a message with timestamp 5
is returned even though no timestamp is strictly less than 0. -/
theorem claim5_counterexample :
    get_messages
        [{ id := "r1", name := "Team", creator := "alice", created_at := 0,
           members := ["alice"],
           messages := [{ id := "m1", sender := "alice", content := "hi",
                          type := "text", timestamp := 5, file_info := none }] }]
        "r1" 50 (some 0) =
      [{ id := "m1", sender := "alice", content := "hi",
         type := "text", timestamp := 5, file_info := none }] ∧
    ¬ (5 : Nat) < 0 := by
  constructor
  · rfl
  · decide

/-! ## Direct-message resolution -/

theorem charsLe_total : ∀ xs ys : List Char,
    charsLe xs ys = true ∨ charsLe ys xs = true := by
  intro xs
  induction xs with
  | nil => intro ys; exact Or.inl rfl
  | cons c cs ih =>
    intro ys
    cases ys with
    | nil => exact Or.inr rfl
    | cons d ds =>
      by_cases h1 : c.toNat < d.toNat
      · exact Or.inl (by simp [charsLe, h1])
      · by_cases h2 : d.toNat < c.toNat
        · exact Or.inr (by simp [charsLe, h2])
        · rcases ih ds with h | h
          · exact Or.inl (by simp [charsLe, h1, h2, h])
          · exact Or.inr (by simp [charsLe, h1, h2, h])

theorem charsLe_antisymm : ∀ xs ys : List Char,
    charsLe xs ys = true → charsLe ys xs = true → xs = ys := by
  intro xs
  induction xs with
  | nil =>
    intro ys h1 h2
    cases ys with
    | nil => rfl
    | cons d ds => simp [charsLe] at h2
  | cons c cs ih =>
    intro ys h1 h2
    cases ys with
    | nil => simp [charsLe] at h1
    | cons d ds =>
      by_cases h3 : c.toNat < d.toNat
      · simp [charsLe, h3, Nat.lt_asymm h3] at h2
      · by_cases h4 : d.toNat < c.toNat
        · simp [charsLe, h3, h4] at h1
        · have hcd : c = d := Char.ext (UInt32.ext (show c.toNat = d.toNat by omega))
          subst hcd
          simp only [charsLe, h3, if_neg h3] at h1 h2
          rw [ih ds h1 h2]

theorem sortedPair_comm (a b : String) : sortedPair a b = sortedPair b a := by
  unfold sortedPair pyStrLe
  by_cases h1 : charsLe a.data b.data = true
  · by_cases h2 : charsLe b.data a.data = true
    · have hab : a = b := congrArg String.mk (charsLe_antisymm _ _ h1 h2)
      subst hab
      rfl
    · simp [h1, h2]
  · have h2 : charsLe b.data a.data = true := by
      rcases charsLe_total a.data b.data with h | h
      · exact absurd h h1
      · exact h
    simp [h1, h2]

theorem charsPre_append : ∀ p t : List Char, charsPre p (p ++ t) = true := by
  intro p t
  induction p with
  | nil => rfl
  | cons c cs ih => simp [charsPre, ih]

/-- The room record `create_direct_message` writes when no direct room
for the pair exists yet. -/
def dmRoom (a b id : String) (now : Nat) : Chatroom :=
  let p := sortedPair a b
  { id := id, name := "DM_" ++ p.1 ++ "_" ++ p.2, creator := p.1
    created_at := now, members := [p.1, p.2], messages := [] }

theorem isDMRoomFor_dmRoom (a b id : String) (now : Nat) :
    isDMRoomFor [(sortedPair a b).1, (sortedPair a b).2] (dmRoom a b id now) = true := by
  have hsw : pyStartsWith ("DM_" ++ (sortedPair a b).1 ++ "_" ++ (sortedPair a b).2) "DM_" = true := by
    unfold pyStartsWith
    rw [String.data_append, String.data_append, List.append_assoc]
    exact charsPre_append _ _
  simp [isDMRoomFor, dmRoom, sameSet, hsw]

/-- Either branch of `create_direct_message`, fully described. -/
theorem create_direct_message_cases (rooms : List Chatroom)
    (a b id : String) (now : Nat) :
    (∃ r, rooms.find? (isDMRoomFor [(sortedPair a b).1, (sortedPair a b).2]) = some r ∧
      create_direct_message rooms a b id now = (rooms, (some r.id, false))) ∨
    (rooms.find? (isDMRoomFor [(sortedPair a b).1, (sortedPair a b).2]) = none ∧
      create_direct_message rooms a b id now =
        (saveRoom rooms (dmRoom a b id now), (some id, true))) := by
  rcases hfind : rooms.find? (isDMRoomFor [(sortedPair a b).1, (sortedPair a b).2])
    with _ | r
  · refine Or.inr ⟨rfl, ?_⟩
    rw [create_direct_message]
    simp only [hfind]
    simp [create_chatroom, dmRoom, saveRoom]
  · refine Or.inl ⟨r, rfl, ?_⟩
    rw [create_direct_message]
    simp only [hfind]

theorem find?_map_replace {pred : Chatroom → Bool} {nr : Chatroom}
    (hnr : pred nr = true) :
    ∀ rooms : List Chatroom, (∀ x ∈ rooms, pred x = false) →
      rooms.any (fun x => x.id = nr.id) = true →
      (rooms.map (fun x => if x.id = nr.id then nr else x)).find? pred = some nr := by
  intro rooms
  induction rooms with
  | nil => intro _ h; cases h
  | cons x xs ih =>
    intro hall hany
    by_cases hid : x.id = nr.id
    · rw [List.map_cons, if_pos hid]
      exact List.find?_cons_of_pos _ hnr
    · have hx : pred x = false := hall x (List.mem_cons_self x xs)
      have htail : xs.any (fun y => y.id = nr.id) = true := by
        rcases List.any_eq_true.mp hany with ⟨y, hy, hyid⟩
        rcases List.mem_cons.mp hy with rfl | hy
        · exact absurd (of_decide_eq_true hyid) hid
        · exact List.any_eq_true.mpr ⟨y, hy, hyid⟩
      rw [List.map_cons, if_neg hid,
        List.find?_cons_of_neg _ (by simp [hx])]
      exact ih (fun y hy => hall y (List.mem_cons_of_mem _ hy)) htail

/-- When the scan finds nothing, the freshly written direct-message
room is found by an identical later scan. -/
theorem find?_saveRoom {pred : Chatroom → Bool} {nr : Chatroom}
    (hnr : pred nr = true) (rooms : List Chatroom)
    (hnone : rooms.find? pred = none) :
    (saveRoom rooms nr).find? pred = some nr := by
  have hall := List.find?_eq_none.mp hnone
  have hall' : ∀ x ∈ rooms, pred x = false :=
    fun x hx => Bool.eq_false_iff.mpr (hall x hx)
  unfold saveRoom
  by_cases hany : rooms.any (fun x => x.id = nr.id) = true
  · rw [if_pos hany]
    exact find?_map_replace hnr rooms hall' hany
  · rw [if_neg hany, List.find?_append, hnone]
    simp [List.find?_cons, hnr]

/-- C6: two sequential `create_direct_message` calls for the same pair
of users — in either argument order — return the same (real) chatroom
id, and the second call never reports a fresh creation. -/
theorem claim6_dm_idempotent (rooms : List Chatroom) (a b a' b' : String)
    (id1 id2 : String) (t1 t2 : Nat)
    (horder : (a' = a ∧ b' = b) ∨ (a' = b ∧ b' = a)) :
    (create_direct_message (create_direct_message rooms a b id1 t1).1
        a' b' id2 t2).2.1 =
      (create_direct_message rooms a b id1 t1).2.1 ∧
    (create_direct_message (create_direct_message rooms a b id1 t1).1
        a' b' id2 t2).2.2 = false ∧
    ∃ rid, (create_direct_message rooms a b id1 t1).2.1 = some rid := by
  have hpair : sortedPair a' b' = sortedPair a b := by
    rcases horder with ⟨ha, hb⟩ | ⟨ha, hb⟩
    · rw [ha, hb]
    · rw [ha, hb, sortedPair_comm]
  rcases create_direct_message_cases rooms a b id1 t1 with
    ⟨r, hfind, heq⟩ | ⟨hfind, heq⟩
  · rw [heq]
    rcases create_direct_message_cases rooms a' b' id2 t2 with
      ⟨r2, hfind2, heq2⟩ | ⟨hfind2, heq2⟩
    · rw [hpair, hfind] at hfind2
      cases hfind2
      rw [heq2]
      exact ⟨rfl, rfl, r.id, rfl⟩
    · rw [hpair, hfind] at hfind2
      cases hfind2
  · rw [heq]
    have hnr : isDMRoomFor [(sortedPair a' b').1, (sortedPair a' b').2]
        (dmRoom a b id1 t1) = true := by
      rw [hpair]
      exact isDMRoomFor_dmRoom a b id1 t1
    have hfound : (saveRoom rooms (dmRoom a b id1 t1)).find?
        (isDMRoomFor [(sortedPair a' b').1, (sortedPair a' b').2]) =
          some (dmRoom a b id1 t1) := by
      apply find?_saveRoom hnr
      rw [hpair]
      exact hfind
    rcases create_direct_message_cases (saveRoom rooms (dmRoom a b id1 t1))
        a' b' id2 t2 with ⟨r2, hfind2, heq2⟩ | ⟨hfind2, heq2⟩
    · rw [hfound] at hfind2
      cases hfind2
      rw [heq2]
      exact ⟨rfl, rfl, id1, rfl⟩
    · rw [hfound] at hfind2
      cases hfind2

/-- Witness for C6: resolving `("bob", "alice")` then `("alice", "bob")`
from an empty store. -/
theorem claim6_dm_idempotent_witness :
    (create_direct_message (create_direct_message [] "bob" "alice" "r1" 5).1
        "alice" "bob" "r2" 6).2.1 =
      (create_direct_message [] "bob" "alice" "r1" 5).2.1 ∧
    (create_direct_message (create_direct_message [] "bob" "alice" "r1" 5).1
        "alice" "bob" "r2" 6).2.2 = false ∧
    ∃ rid, (create_direct_message [] "bob" "alice" "r1" 5).2.1 = some rid :=
  claim6_dm_idempotent [] "bob" "alice" "alice" "bob" "r1" "r2" 5 6
    (Or.inr ⟨rfl, rfl⟩)

/-! ## Command channel: poll behaviour -/

/-- `_read_from_node` does nothing when the out-file is absent, or when
its stripped content is empty or the sentinel. -/
theorem read_from_node_none {st : NCState} {addr : String}
    (h : st.files (format_node_address addr) = none ∨
      ∃ raw, st.files (format_node_address addr) = some raw ∧
        ¬(pyStrip raw ≠ "" ∧ pyStrip raw ≠ "done")) :
    read_from_node st addr = (st, none) := by
  rcases h with h | ⟨raw, hraw, hc⟩
  · simp only [read_from_node, h]
  · simp only [read_from_node, hraw, if_neg hc]

/-- `_read_from_node` on real content: clear the slot, return the
stripped content. -/
theorem read_from_node_real {st : NCState} {addr raw : String}
    (hraw : st.files (format_node_address addr) = some raw)
    (h1 : pyStrip raw ≠ "") (h2 : pyStrip raw ≠ "done") :
    read_from_node st addr =
      ({ st with files := fun k =>
           if k = format_node_address addr then some "" else st.files k },
       some (pyStrip raw)) := by
  simp only [read_from_node, hraw, if_pos (And.intro h1 h2)]

/-- `get_response` is the identity (with no yield) whenever the poll
primitive yields nothing. -/
theorem get_response_eq_none {st : NCState} {addr : String} (now : Nat)
    (h : read_from_node st addr = (st, none)) :
    get_response st addr now = (st, none) := by
  simp only [get_response, h]

/-- `get_response` on real content: clear the slot, record the entry,
return the stripped content. -/
theorem get_response_real {st : NCState} {addr raw : String} (now : Nat)
    (hraw : st.files (format_node_address addr) = some raw)
    (h1 : pyStrip raw ≠ "") (h2 : pyStrip raw ≠ "done") :
    get_response st addr now =
      ({ files := fun k =>
           if k = format_node_address addr then some "" else st.files k,
         responses := fun a =>
           if a = addr then recordResponse (st.responses a) ⟨pyStrip raw, now⟩
           else st.responses a },
       some (pyStrip raw)) := by
  simp only [get_response, read_from_node_real hraw h1 h2, if_pos h1]

/-- Entries surviving the 100-bound were in the history or are the one
just appended. -/
theorem mem_recordResponse {hist : List Entry} {e e' : Entry}
    (h : e ∈ recordResponse hist e') : e ∈ hist ∨ e = e' := by
  simp only [recordResponse] at h
  have hmem : e ∈ hist ++ [e'] := by
    split at h
    · exact List.mem_of_mem_drop h
    · exact h
  rcases List.mem_append.mp hmem with h1 | h1
  · exact Or.inl h1
  · exact Or.inr (List.mem_singleton.mp h1)

/-- C2: a poll never surfaces the `"done"` sentinel, never records it in
the ledger, and — when the result slot is absent, empty, or holds the
sentinel — returns nothing and mutates nothing. -/
theorem claim2_sentinel_not_surfaced (st : NCState) (addr : String) (now : Nat) :
    (get_response st addr now).2 ≠ some "done" ∧
    (∀ a e, e ∈ (get_response st addr now).1.responses a →
      e ∈ st.responses a ∨ e.content ≠ "done") ∧
    ((st.files (format_node_address addr) = none ∨
      st.files (format_node_address addr) = some "" ∨
      st.files (format_node_address addr) = some "done") →
      get_response st addr now = (st, none)) := by
  refine ⟨?_, ?_, ?_⟩
  · rcases hslot : st.files (format_node_address addr) with _ | raw
    · rw [get_response_eq_none now (read_from_node_none (Or.inl hslot))]
      simp
    · by_cases hc : pyStrip raw ≠ "" ∧ pyStrip raw ≠ "done"
      · rw [get_response_real now hslot hc.1 hc.2]
        simp [hc.2]
      · rw [get_response_eq_none now (read_from_node_none (Or.inr ⟨raw, hslot, hc⟩))]
        simp
  · intro a e he
    rcases hslot : st.files (format_node_address addr) with _ | raw
    · rw [get_response_eq_none now (read_from_node_none (Or.inl hslot))] at he
      exact Or.inl he
    · by_cases hc : pyStrip raw ≠ "" ∧ pyStrip raw ≠ "done"
      · rw [get_response_real now hslot hc.1 hc.2] at he
        by_cases ha : a = addr
        · simp only [ha, if_pos rfl] at he
          rcases mem_recordResponse he with h1 | h1
          · exact Or.inl (ha ▸ h1)
          · refine Or.inr ?_
            rw [h1]
            exact hc.2
        · simp only [if_neg ha] at he
          exact Or.inl he
      · rw [get_response_eq_none now (read_from_node_none (Or.inr ⟨raw, hslot, hc⟩))] at he
        exact Or.inl he
  · intro h
    apply get_response_eq_none
    apply read_from_node_none
    rcases h with h | h | h
    · exact Or.inl h
    · exact Or.inr ⟨"", h, by decide⟩
    · exact Or.inr ⟨"done", h, by decide⟩

/-- Witness for C2: a slot holding the sentinel is left untouched and
nothing is returned. -/
theorem claim2_sentinel_not_surfaced_witness :
    get_response
        { files := fun k => if k = "n" then some "done" else none,
          responses := fun _ => [] } "n" 0 =
      ({ files := fun k => if k = "n" then some "done" else none,
         responses := fun _ => [] }, none) :=
  (claim2_sentinel_not_surfaced
    { files := fun k => if k = "n" then some "done" else none,
      responses := fun _ => [] } "n" 0).2.2
    (Or.inr (Or.inr (by decide)))

/-- C7 fails as stated: a slot holding `" "` is non-empty and is not the
sentinel, yet the poll returns nothing and does not clear it, because
the code tests the whitespace-stripped content. -/
theorem claim7_counterexample :
    get_response
        { files := fun k => if k = "n" then some " " else none,
          responses := fun _ => [] } "n" 0 =
      ({ files := fun k => if k = "n" then some " " else none,
         responses := fun _ => [] }, none) ∧
    (" " : String) ≠ "" ∧ (" " : String) ≠ "done" := by
  refine ⟨?_, by decide, by decide⟩
  exact get_response_eq_none 0
    (read_from_node_none (Or.inr ⟨" ", by decide, by decide⟩))

/-- C7 (amended): when the slot's whitespace-stripped content is
non-empty and not the sentinel, a poll returns exactly that stripped
content and clears the slot to empty within the same call, and an
immediate second poll with no intervening write yields nothing and
changes nothing (at-most-once hand-off). -/
theorem claim7_at_most_once (st : NCState) (addr raw : String) (t1 t2 : Nat)
    (hraw : st.files (format_node_address addr) = some raw)
    (h1 : pyStrip raw ≠ "") (h2 : pyStrip raw ≠ "done") :
    (get_response st addr t1).2 = some (pyStrip raw) ∧
    (get_response st addr t1).1.files (format_node_address addr) = some "" ∧
    get_response (get_response st addr t1).1 addr t2 =
      ((get_response st addr t1).1, none) := by
  rw [get_response_real t1 hraw h1 h2]
  refine ⟨rfl, by simp, ?_⟩
  apply get_response_eq_none
  apply read_from_node_none
  exact Or.inr ⟨"", by simp, by decide⟩

/-- Witness for the amended C7 at a concrete slot content. -/
theorem claim7_at_most_once_witness :
    (get_response
        { files := fun k => if k = "n" then some " hi " else none,
          responses := fun _ => [] } "n" 3).2 = some (pyStrip " hi ") ∧
    (get_response
        { files := fun k => if k = "n" then some " hi " else none,
          responses := fun _ => [] } "n" 3).1.files (format_node_address "n") =
      some "" ∧
    get_response
        (get_response
          { files := fun k => if k = "n" then some " hi " else none,
            responses := fun _ => [] } "n" 3).1 "n" 4 =
      ((get_response
          { files := fun k => if k = "n" then some " hi " else none,
            responses := fun _ => [] } "n" 3).1, none) :=
  claim7_at_most_once
    { files := fun k => if k = "n" then some " hi " else none,
      responses := fun _ => [] } "n" " hi " 3 4 (by decide) (by decide) (by decide)

/-! ## Address formatting -/

/-- C3 fails as stated: the transform is not injective on all address
strings — an address already containing the filesystem-safe character
collides with the colon-delimited one. -/
theorem claim3_counterexample :
    format_node_address "a:b" = format_node_address "a_b" ∧
    ("a:b" : String) ≠ "a_b" := by
  exact ⟨by decide, by decide⟩

theorem unformat_format_chars :
    ∀ l : List Char, '_' ∉ l →
      (l.map (fun c => if c = ':' then '_' else c)).map
          (fun c => if c = '_' then ':' else c) = l := by
  intro l
  induction l with
  | nil => intro _; rfl
  | cons c cs ih =>
    intro h
    simp only [List.map_cons]
    rw [ih (fun hc => h (List.mem_cons_of_mem _ hc))]
    have hcu : c ≠ '_' := fun he => h (he ▸ List.mem_cons_self c cs)
    by_cases hc : c = ':'
    · simp [hc]
    · simp [hc, hcu]

/-- C3 (amended): on addresses free of the substitute character `'_'`
the transform is reversible — mapping `'_'` back to `':'` recovers the
address — and therefore injective on that domain. -/
theorem claim3_format_reversible (a : String) (ha : '_' ∉ a.data) :
    unformat_node_address (format_node_address a) = a ∧
    ∀ b : String, '_' ∉ b.data →
      format_node_address a = format_node_address b → a = b := by
  have key : ∀ s : String, '_' ∉ s.data →
      unformat_node_address (format_node_address s) = s := by
    intro s hs
    show (⟨(s.data.map (fun c => if c = ':' then '_' else c)).map
        (fun c => if c = '_' then ':' else c)⟩ : String) = s
    rw [unformat_format_chars s.data hs]
  refine ⟨key a ha, fun b hb heq => ?_⟩
  rw [← key a ha, heq, key b hb]

/-- Witness for the amended C3 at concrete underscore-free addresses. -/
theorem claim3_format_reversible_witness :
    unformat_node_address (format_node_address "10.0.0.5:9000") = "10.0.0.5:9000" ∧
    (format_node_address "10.0.0.5:9000" = format_node_address "10.0.0.6:9000" →
      ("10.0.0.5:9000" : String) = "10.0.0.6:9000") :=
  ⟨(claim3_format_reversible "10.0.0.5:9000" (by decide)).1,
   (claim3_format_reversible "10.0.0.5:9000" (by decide)).2 "10.0.0.6:9000" (by decide)⟩

/-! ## Response ledger bound -/

theorem lastN_all (n : Nat) (l : List α) (h : l.length ≤ n) : lastN n l = l := by
  unfold lastN
  rw [Nat.sub_eq_zero_of_le h, List.drop_zero]

/-- Appending to a history already truncated to the last 100 entries is
the same as truncating after appending. -/
theorem recordResponse_lastN (m : List Entry) (e : Entry) :
    recordResponse (lastN 100 m) e = lastN 100 (m ++ [e]) := by
  by_cases h : m.length ≤ 100
  · rw [lastN_all 100 m h]
    simp only [recordResponse]
    split
    · rfl
    · next hle => rw [lastN_all 100 (m ++ [e]) (by omega)]
  · push_neg at h
    have hlen1 : (lastN 100 m).length = 100 := by
      unfold lastN
      rw [List.length_drop]
      omega
    simp only [recordResponse]
    split
    · have hL : (lastN 100 m ++ [e]).length - 100 = 1 := by
        rw [List.length_append, hlen1]
        simp
      rw [hL, List.drop_append_of_le_length (by rw [hlen1]; omega)]
      unfold lastN
      rw [List.drop_drop, List.drop_append_of_le_length (by simp)]
      have harith : ∀ k l : Nat, k = l → m.drop k ++ [e] = m.drop l ++ [e] := by
        intro k l hkl
        rw [hkl]
      apply harith
      simp
      omega
    · next hle =>
      exfalso
      rw [List.length_append, hlen1] at hle
      simp at hle

/-- Folding the ledger update over a sequence of entries keeps exactly
the last 100, in order. -/
theorem foldl_recordResponse (es : List Entry) :
    es.foldl recordResponse [] = lastN 100 es := by
  induction es using List.reverseRecOn with
  | nil => rfl
  | append_singleton l e ih =>
    rw [List.foldl_append, List.foldl_cons, List.foldl_nil, ih,
      recordResponse_lastN]

/-- Driving the poll loop over real inputs folds the ledger update over
the corresponding entries. -/
theorem pollSequence_responses (addr : String) :
    ∀ (inputs : List (String × Nat)) (st : NCState),
      (∀ p ∈ inputs, pyStrip p.1 ≠ "" ∧ pyStrip p.1 ≠ "done") →
      (inputs.foldl
        (fun st p => (get_response (writeNodeOutput st addr p.1) addr p.2).1)
        st).responses addr =
      inputs.foldl (fun h p => recordResponse h ⟨pyStrip p.1, p.2⟩)
        (st.responses addr) := by
  intro inputs
  induction inputs with
  | nil => intro st _; rfl
  | cons p ps ih =>
    intro st hall
    have hp := hall p (List.mem_cons_self p ps)
    have hw : (writeNodeOutput st addr p.1).files (format_node_address addr) =
        some p.1 := by
      simp [writeNodeOutput]
    rw [List.foldl_cons, List.foldl_cons,
      get_response_real p.2 hw hp.1 hp.2,
      ih _ (fun q hq => hall q (List.mem_cons_of_mem _ hq))]
    congr 1
    simp [writeNodeOutput]

/-- C4: after more than 100 real results for one address, the ledger
holds exactly the 100 most recent entries, oldest first, the earlier
ones having been dropped. -/
theorem claim4_ledger_bound (addr : String) (inputs : List (String × Nat))
    (hreal : ∀ p ∈ inputs, pyStrip p.1 ≠ "" ∧ pyStrip p.1 ≠ "done")
    (hlen : inputs.length > 100) :
    get_all_responses (pollSequence addr inputs) addr =
      lastN 100 (inputs.map (fun p => (⟨pyStrip p.1, p.2⟩ : Entry))) ∧
    (get_all_responses (pollSequence addr inputs) addr).length = 100 := by
  have h1 : get_all_responses (pollSequence addr inputs) addr =
      inputs.foldl (fun h p => recordResponse h ⟨pyStrip p.1, p.2⟩) [] := by
    unfold get_all_responses pollSequence
    exact pollSequence_responses addr inputs initialNC hreal
  have h2 : inputs.foldl (fun h p => recordResponse h ⟨pyStrip p.1, p.2⟩) [] =
      (inputs.map (fun p => (⟨pyStrip p.1, p.2⟩ : Entry))).foldl
        recordResponse [] := by
    rw [List.foldl_map]
  rw [h1, h2, foldl_recordResponse]
  refine ⟨rfl, ?_⟩
  unfold lastN
  simp
  omega

/-- Witness for C4: 101 identical real results keep a ledger of exactly
the last 100. -/
theorem claim4_ledger_bound_witness :
    get_all_responses (pollSequence "n" (List.replicate 101 ("x", 0))) "n" =
      lastN 100 ((List.replicate 101 ("x", 0)).map
        (fun p => (⟨pyStrip p.1, p.2⟩ : Entry))) ∧
    (get_all_responses (pollSequence "n" (List.replicate 101 ("x", 0))) "n").length = 100 :=
  claim4_ledger_bound "n" (List.replicate 101 ("x", 0))
    (by decide) (by decide)

/-! ## User registration round-trip -/

/-- C10: from a state where the username is free, registration succeeds
and an immediate authentication with the same password succeeds, for
any pure hash primitive — the stored salted hash is recomputed
identically. -/
theorem claim10_register_then_authenticate (sha256hex : String → String)
    (st : UMState) (username password ip : String) (port t1 t2 : Nat)
    (hfree : st.users username = none) :
    (register_user sha256hex st username password ip port t1).2.1 = true ∧
    (authenticate sha256hex
        (register_user sha256hex st username password ip port t1).1
        username password t2).2.1 = true := by
  have hex : user_exists st username = false := by
    simp [user_exists, hfree]
  constructor
  · simp [register_user, hex]
  · simp [register_user, hex, authenticate]

/-- Witness for C10 with a concrete (identity) hash primitive and
fresh store. -/
theorem claim10_register_then_authenticate_witness :
    (register_user (fun s => s) { users := fun _ => none, current_user := none }
        "alice" "pw" "10.0.0.5" 9000 1).2.1 = true ∧
    (authenticate (fun s => s)
        (register_user (fun s => s) { users := fun _ => none, current_user := none }
          "alice" "pw" "10.0.0.5" 9000 1).1
        "alice" "pw" 2).2.1 = true :=
  claim10_register_then_authenticate (fun s => s)
    { users := fun _ => none, current_user := none }
    "alice" "pw" "10.0.0.5" 9000 1 2 rfl

end NetAppTesting
